import Mathlib

/-!
Shallow embedding of the Polyfetch market pipeline (Go sources:
`models.go`, `subgraph.go`, `main.go`) in Lean 4.

Modelling conventions:
* Go `float64` percentages/prices are modelled as exact rationals (`ℚ`);
  all values appearing in the verified properties are exactly
  representable, so the rational model agrees with the source on them.
* Go `time.Time` is modelled as `Int`: seconds elapsed since the Go zero
  time (January 1, year 1, 00:00:00 UTC).  `IsZero` becomes `= 0`.
* Library calls (`encoding/json` unmarshalling into `[]string`,
  `strconv.Atoi`, `fmt.Sscanf` with `%f`, `time.Parse`) are modelled by
  executable Lean functions mirroring their documented behaviour on the
  relevant inputs.
* HTTP transport is abstracted away: fetchers take the already-decoded
  upstream payload (or, for the paginated ledger fetch, a function from
  skip offset to that page's response) as an argument.
-/

namespace Polyfetch

/-! ### Character-level helpers shared by the parser models -/

/-- Numeric value of a decimal digit character, `none` otherwise. -/
def digitVal (c : Char) : Option Nat :=
  if '0' ≤ c ∧ c ≤ '9' then some (c.toNat - 48) else none

/-- Longest prefix of decimal digits: returns (number of digits consumed,
their value read in base 10, rest of the input). -/
def takeDigits : List Char → Nat → Nat → Nat × Nat × List Char
  | [], n, acc => (n, acc, [])
  | c :: cs, n, acc =>
    match digitVal c with
    | some d => takeDigits cs (n + 1) (acc * 10 + d)
    | none => (n, acc, c :: cs)

/-- Drop leading JSON/format whitespace (space, tab, newline, carriage return). -/
def skipWS : List Char → List Char
  | ' ' :: cs => skipWS cs
  | '\t' :: cs => skipWS cs
  | '\n' :: cs => skipWS cs
  | '\r' :: cs => skipWS cs
  | cs => cs

/-- Optional leading sign; returns (isNegative, rest). -/
def scanSign : List Char → Bool × List Char
  | '+' :: cs => (false, cs)
  | '-' :: cs => (true, cs)
  | cs => (false, cs)

/-! ### Model of `strconv.Atoi` (Go standard library)

`strconv.Atoi` parses an optional sign followed by at least one decimal
digit, rejects any other character, and fails with a range error when the
value does not fit in a signed 64-bit `int`.  On any error the caller in
`main.go` keeps its default, so only success/failure and the parsed value
matter. -/

/-- All-digits check with accumulated value; fails on a non-digit or on empty
input. -/
def digitsToNat : List Char → Nat → Option Nat
  | [], acc => some acc
  | c :: cs, acc =>
    match digitVal c with
    | some d => digitsToNat cs (acc * 10 + d)
    | none => none

/-- Model of Go `strconv.Atoi`. -/
def atoi (s : String) : Option Int :=
  match s.toList with
  | [] => none
  | cs =>
    let (neg, cs') := scanSign cs
    match cs' with
    | [] => none
    | _ =>
      match digitsToNat cs' 0 with
      | none => none
      | some v =>
        let i : Int := if neg then -(v : Int) else (v : Int)
        if -(2 ^ 63) ≤ i ∧ i ≤ 2 ^ 63 - 1 then some i else none

/-! ### Model of `fmt.Sscanf(price, "%f", &priceFloat)`

The `%f` verb skips leading spaces, then scans a float token
(sign, integer digits, optional fraction, optional exponent) and converts
it.  On failure the target variable keeps its zero value, and
`subgraph.go` ignores the returned error, so the net effect is
"parse a decimal-number prefix, else 0".  Values are exact rationals. -/

/-- Build the exact rational `± (vInt.vFrac) * 10^(±vExp)` out of the pieces of
a scanned decimal number.  A single `mkRat` keeps the value kernel-computable. -/
def ratOfParts (neg : Bool) (vInt vFrac nFrac : Nat) (eneg : Bool) (vExp : Nat) : ℚ :=
  let numAbs : Nat := (vInt * 10 ^ nFrac + vFrac) * (if eneg then 1 else 10 ^ vExp)
  let den : Nat := 10 ^ nFrac * (if eneg then 10 ^ vExp else 1)
  mkRat (if neg then -(numAbs : Int) else (numAbs : Int)) den

/-- Scan a decimal-number prefix: mantissa with optional fraction and
optional exponent.  Returns `none` when no valid number starts the input
(after optional spaces), mirroring the zero-on-failure behaviour. -/
def scanFloat (s : List Char) : Option ℚ :=
  let cs := skipWS s
  let (neg, cs) := scanSign cs
  let (nInt, vInt, cs) := takeDigits cs 0 0
  let (nFrac, vFrac, cs) :=
    match cs with
    | '.' :: r => takeDigits r 0 0
    | _ => (0, 0, cs)
  if nInt = 0 ∧ nFrac = 0 then none
  else
    match cs with
    | 'e' :: r =>
      let (eneg, r) := scanSign r
      let (nExp, vExp, _) := takeDigits r 0 0
      if nExp = 0 then none
      else some (ratOfParts neg vInt vFrac nFrac eneg vExp)
    | 'E' :: r =>
      let (eneg, r) := scanSign r
      let (nExp, vExp, _) := takeDigits r 0 0
      if nExp = 0 then none
      else some (ratOfParts neg vInt vFrac nFrac eneg vExp)
    | _ => some (ratOfParts neg vInt vFrac nFrac false 0)

/-- The value left in `priceFloat` after `fmt.Sscanf(price, "%f", &priceFloat)`:
the parsed number, or 0 when parsing fails. -/
def sscanfFloat (s : String) : ℚ :=
  (scanFloat s.toList).getD 0

/-! ### Model of `json.Unmarshal([]byte(s), &xs)` for `xs : []string`

`encoding/json` accepts (with surrounding whitespace) either `null`, which
leaves the slice nil, or an array of JSON strings; anything else — or
trailing data — is an error.  The caller in `models.go` uses the parsed
list only on success, so the model is an `Option (List String)`. -/

/-- Value of a hexadecimal digit character (0 for non-hex input, which the
callers exclude). -/
def hexVal (c : Char) : Nat :=
  if '0' ≤ c ∧ c ≤ '9' then c.toNat - 48
  else if 'a' ≤ c ∧ c ≤ 'f' then c.toNat - 87
  else if 'A' ≤ c ∧ c ≤ 'F' then c.toNat - 55
  else 0

/-- Is `c` a hexadecimal digit? -/
def isHexDigitChar (c : Char) : Bool :=
  ('0' ≤ c ∧ c ≤ '9') ∨ ('a' ≤ c ∧ c ≤ 'f') ∨ ('A' ≤ c ∧ c ≤ 'F')

/-- Parse the body of a JSON string after the opening quote, returning the
decoded characters and the input after the closing quote.  Lone UTF-16
surrogate escapes decode to U+FFFD as in `encoding/json` (surrogate-pair
combining is not modelled). -/
def jsonStringBody : List Char → Option (List Char × List Char)
  | [] => none
  | '"' :: rest => some ([], rest)
  | '\\' :: rest =>
    match rest with
    | '"' :: r => (jsonStringBody r).map (fun (s, t) => ('"' :: s, t))
    | '\\' :: r => (jsonStringBody r).map (fun (s, t) => ('\\' :: s, t))
    | '/' :: r => (jsonStringBody r).map (fun (s, t) => ('/' :: s, t))
    | 'b' :: r => (jsonStringBody r).map (fun (s, t) => ('\x08' :: s, t))
    | 'f' :: r => (jsonStringBody r).map (fun (s, t) => ('\x0c' :: s, t))
    | 'n' :: r => (jsonStringBody r).map (fun (s, t) => ('\n' :: s, t))
    | 'r' :: r => (jsonStringBody r).map (fun (s, t) => ('\r' :: s, t))
    | 't' :: r => (jsonStringBody r).map (fun (s, t) => ('\t' :: s, t))
    | 'u' :: h1 :: h2 :: h3 :: h4 :: r =>
      if isHexDigitChar h1 ∧ isHexDigitChar h2 ∧ isHexDigitChar h3 ∧ isHexDigitChar h4 then
        let n := 4096 * hexVal h1 + 256 * hexVal h2 + 16 * hexVal h3 + hexVal h4
        let c := if 0xd800 ≤ n ∧ n ≤ 0xdfff then '�' else Char.ofNat n
        (jsonStringBody r).map (fun (s, t) => (c :: s, t))
      else none
    | _ => none
  | c :: rest =>
    if c.toNat < 32 then none
    else (jsonStringBody rest).map (fun (s, t) => (c :: s, t))

/-- Parse a comma-separated tail of JSON strings up to the closing bracket;
`fuel` bounds the recursion by the input length. -/
def jsonItems (fuel : Nat) (cs : List Char) (acc : List String) :
    Option (List String × List Char) :=
  match fuel with
  | 0 => none
  | fuel + 1 =>
    match skipWS cs with
    | '"' :: r =>
      match jsonStringBody r with
      | none => none
      | some (s, rest) =>
        match skipWS rest with
        | ',' :: r2 => jsonItems fuel r2 (acc ++ [String.mk s])
        | ']' :: r2 => some (acc ++ [String.mk s], r2)
        | _ => none
    | _ => none

/-- Model of `json.Unmarshal` into a `[]string`: `none` on any decode error. -/
def parseStringArray (s : String) : Option (List String) :=
  let cs := skipWS s.toList
  match cs with
  | 'n' :: 'u' :: 'l' :: 'l' :: rest =>
    if skipWS rest = [] then some [] else none
  | '[' :: rest =>
    match skipWS rest with
    | ']' :: r2 => if skipWS r2 = [] then some [] else none
    | r =>
      match jsonItems (r.length + 1) r [] with
      | some (items, rest2) => if skipWS rest2 = [] then some items else none
      | none => none
  | _ => none

/-! ### Model of `time.Parse` for the three formats tried in `models.go`

A `time.Time` is modelled as `Int`: seconds since the Go zero time
(January 1, year 1, 00:00:00 UTC), so `IsZero` becomes `= 0`.
Sub-second precision is dropped (a fractional-second suffix is accepted
where Go accepts one, but its value is ignored), and years are the
four-digit years `0001`–`9999` matched by the `2006` layout element. -/

/-- Is `y` a Gregorian leap year? -/
def isLeapYear (y : Nat) : Bool :=
  (y % 4 = 0 ∧ y % 100 ≠ 0) ∨ y % 400 = 0

/-- Number of days in month `m` of year `y` (months are 1-based). -/
def daysInMonth (y m : Nat) : Nat :=
  if m = 2 then (if isLeapYear y then 29 else 28)
  else if m = 4 ∨ m = 6 ∨ m = 9 ∨ m = 11 then 30
  else 31

/-- Days in the given year strictly before month `m` (1-based). -/
def daysBeforeMonth (y m : Nat) : Nat :=
  (List.range (m - 1)).foldl (fun acc i => acc + daysInMonth y (i + 1)) 0

/-- Days between the Go zero time (0001-01-01) and the given civil date. -/
def daysFromZeroDate (y mo d : Nat) : Nat :=
  let py := y - 1
  365 * py + py / 4 - py / 100 + py / 400 + daysBeforeMonth y mo + (d - 1)

/-- Seconds since the Go zero time for a civil date-time at UTC offset
`offset` seconds (east of UTC). -/
def secondsFromCivil (y mo d h mi s : Nat) (offset : Int) : Int :=
  ((daysFromZeroDate y mo d : Int) * 86400 + (h : Int) * 3600 + (mi : Int) * 60 + (s : Int))
    - offset

/-- Range validation performed by `time.Parse` on the parsed components. -/
def validCivil (y mo d h mi s : Nat) : Bool :=
  1 ≤ y ∧ 1 ≤ mo ∧ mo ≤ 12 ∧ 1 ≤ d ∧ d ≤ daysInMonth y mo ∧ h ≤ 23 ∧ mi ≤ 59 ∧ s ≤ 59

/-- Exactly `n` decimal digits from the front of the input. -/
def parseFixedDigits : Nat → List Char → Option (Nat × List Char)
  | 0, cs => some (0, cs)
  | _ + 1, [] => none
  | n + 1, c :: cs =>
    match digitVal c with
    | none => none
    | some d =>
      (parseFixedDigits n cs).bind fun (v, rest) => some (d * 10 ^ n + v, rest)

/-- A literal character from the front of the input. -/
def parseLit (c : Char) : List Char → Option (List Char)
  | [] => none
  | c' :: cs => if c' = c then some cs else none

/-- The date part `YYYY-MM-DD` of a layout. -/
def parseDatePart (cs : List Char) : Option (Nat × Nat × Nat × List Char) := do
  let (y, cs) ← parseFixedDigits 4 cs
  let cs ← parseLit '-' cs
  let (mo, cs) ← parseFixedDigits 2 cs
  let cs ← parseLit '-' cs
  let (d, cs) ← parseFixedDigits 2 cs
  pure (y, mo, d, cs)

/-- The clock part `hh:mm:ss` of a layout. -/
def parseClockPart (cs : List Char) : Option (Nat × Nat × Nat × List Char) := do
  let (h, cs) ← parseFixedDigits 2 cs
  let cs ← parseLit ':' cs
  let (mi, cs) ← parseFixedDigits 2 cs
  let cs ← parseLit ':' cs
  let (s, cs) ← parseFixedDigits 2 cs
  pure (h, mi, s, cs)

/-- Optional fractional-second suffix `.d…d` accepted after the seconds
element; its value is dropped in the seconds-precision model. -/
def parseOptionalFraction (cs : List Char) : Option (List Char) :=
  match cs with
  | '.' :: r =>
    let (n, _, rest) := takeDigits r 0 0
    if n = 0 then none else some rest
  | _ => some cs

/-- Model of `time.Parse(time.RFC3339, s)`: `2006-01-02T15:04:05Z07:00`. -/
def parseRFC3339 (s : String) : Option Int := do
  let (y, mo, d, cs) ← parseDatePart s.toList
  let cs ← parseLit 'T' cs
  let (h, mi, sec, cs) ← parseClockPart cs
  let cs ← parseOptionalFraction cs
  let (offset, cs) ←
    match cs with
    | 'Z' :: r => some ((0 : Int), r)
    | '+' :: r =>
      (parseFixedDigits 2 r).bind fun (zh, r) =>
        (parseLit ':' r).bind fun r =>
          (parseFixedDigits 2 r).bind fun (zm, r) =>
            if zh ≤ 23 ∧ zm ≤ 59 then some ((zh : Int) * 3600 + (zm : Int) * 60, r) else none
    | '-' :: r =>
      (parseFixedDigits 2 r).bind fun (zh, r) =>
        (parseLit ':' r).bind fun r =>
          (parseFixedDigits 2 r).bind fun (zm, r) =>
            if zh ≤ 23 ∧ zm ≤ 59 then some (-((zh : Int) * 3600 + (zm : Int) * 60), r) else none
    | _ => none
  if cs = [] ∧ validCivil y mo d h mi sec then
    pure (secondsFromCivil y mo d h mi sec offset)
  else none

/-- Model of `time.Parse("2006-01-02", s)`. -/
def parseDateOnly (s : String) : Option Int := do
  let (y, mo, d, cs) ← parseDatePart s.toList
  if cs = [] ∧ validCivil y mo d 0 0 0 then
    pure (secondsFromCivil y mo d 0 0 0 0)
  else none

/-- Model of `time.Parse("2006-01-02T15:04:05", s)` (no zone: UTC). -/
def parseDateTimeLocal (s : String) : Option Int := do
  let (y, mo, d, cs) ← parseDatePart s.toList
  let cs ← parseLit 'T' cs
  let (h, mi, sec, cs) ← parseClockPart cs
  let cs ← parseOptionalFraction cs
  if cs = [] ∧ validCivil y mo d h mi sec then
    pure (secondsFromCivil y mo d h mi sec 0)
  else none

/-! ### Data model (`models.go`) -/

/-- `Market` from `models.go`.  `endDate` is seconds since the Go zero time,
with `0` playing the role of the `time.Time` zero value ("absent"). -/
structure Market where
  id : String
  conditionID : String
  question : String
  description : String
  outcomes : List String
  outcomeTokens : List String
  endDate : Int
  volume : String
  liquidity : String
  active : Bool
  deriving Repr, DecidableEq

/-- `GammaMarket` from `models.go`: the raw Gamma API record. -/
structure GammaMarket where
  id : String
  conditionID : String
  question : String
  description : String
  outcomes : String
  outcomePrices : String
  endDateISO : String
  volume : String
  liquidity : String
  active : Bool
  closed : Bool
  deriving Repr, DecidableEq

/-- `GammaEvent` from `models.go` (search API). -/
structure GammaEvent where
  id : String
  title : String
  slug : String
  active : Bool
  closed : Bool
  markets : List GammaMarket
  deriving Repr, DecidableEq

/-- `PositionData` from `subgraph.go`; `user` is the nested `User.ID`. -/
structure PositionData where
  id : String
  user : String
  outcome : String
  market : String
  quantityBought : String
  quantitySold : String
  deriving Repr, DecidableEq

/-- `OutcomeStats` from `models.go`; `percentage` is the `float64` field,
modelled as an exact rational. -/
structure OutcomeStats where
  outcome : String
  outcomeIndex : Nat
  userCount : Nat
  percentage : ℚ
  price : String
  deriving Repr, DecidableEq

/-- `MarketStats` from `models.go`. -/
structure MarketStats where
  marketID : String
  question : String
  totalUsers : Nat
  outcomeStats : List OutcomeStats
  popularOutcome : String
  popularPct : ℚ
  deriving Repr, DecidableEq

/-! ### `convertGammaMarket` and the fetch paths (`models.go`) -/

/-- The end-date cascade in `convertGammaMarket`: the three formats
`time.RFC3339`, `"2006-01-02"`, `"2006-01-02T15:04:05"` are tried in order
and the first success wins; `market.EndDate` keeps the zero value when the
field is empty or no format matches. -/
def parseEndDate (s : String) : Int :=
  if s ≠ "" then
    match parseRFC3339 s with
    | some t => t
    | none =>
      match parseDateOnly s with
      | some t => t
      | none =>
        match parseDateTimeLocal s with
        | some t => t
        | none => 0
  else 0

/-- `convertGammaMarket` from `models.go`. -/
def convertGammaMarket (gm : GammaMarket) : Market :=
  { id := gm.id
    conditionID := gm.conditionID
    question := gm.question
    description := gm.description
    volume := gm.volume
    liquidity := gm.liquidity
    active := gm.active && !gm.closed
    outcomes :=
      if gm.outcomes ≠ "" then
        match parseStringArray gm.outcomes with
        | some xs => xs
        | none => []
      else []
    outcomeTokens :=
      if gm.outcomePrices ≠ "" then
        match parseStringArray gm.outcomePrices with
        | some xs => xs
        | none => []
      else []
    endDate := parseEndDate gm.endDateISO }

/-- The expiry test in `FetchMarkets`/`SearchMarkets`:
`!market.EndDate.IsZero() && market.EndDate.Before(now.AddDate(0, 0, -1))`,
one day being 86400 seconds. -/
def isPastGrace (now : Int) (m : Market) : Bool :=
  m.endDate ≠ 0 ∧ m.endDate < now - 86400

/-- The conversion-and-filter loop of `FetchMarkets` (`models.go`), applied to
the decoded `[]GammaMarket` payload with the current time `now`. -/
def fetchMarketsFrom (now : Int) (gms : List GammaMarket) : List Market :=
  (gms.map convertGammaMarket).filter (fun m => !isPastGrace now m)

/-- The success path of `FetchMarketByID` (`models.go`): the decoded record is
converted and returned with no filtering. -/
def fetchMarketByIDFrom (gm : GammaMarket) : Market :=
  convertGammaMarket gm

/-- The per-event accumulation loop of `SearchMarkets` (`models.go`):
each event contributes its active, non-closed, within-grace markets; after
each event, if at least `limit` markets are collected the list is truncated
to `limit` and the loop breaks. -/
def searchLoop (now : Int) (limit : Nat) : List GammaEvent → List Market → List Market
  | [], acc => acc
  | e :: rest, acc =>
    let acc' := acc ++
      ((e.markets.filter (fun gm => gm.active && !gm.closed)).map convertGammaMarket).filter
        (fun m => !isPastGrace now m)
    if limit ≤ acc'.length then acc'.take limit else searchLoop now limit rest acc'

/-- `SearchMarkets` (`models.go`) applied to the decoded search response. -/
def searchMarketsFrom (now : Int) (limit : Nat) (events : List GammaEvent) : List Market :=
  searchLoop now limit events []

/-! ### Query-parameter handling (`handleGetMarkets` in `main.go`)

`r.URL.Query().Get` returns `""` for a missing parameter, so the raw
parameter is a plain `String`. -/

/-- The `limit` parameter logic of `handleGetMarkets`. -/
def parseLimitParam (l : String) : Int :=
  if l ≠ "" then
    match atoi l with
    | some parsed => if 0 < parsed ∧ parsed ≤ 100 then parsed else 50
    | none => 50
  else 50

/-- The `offset` parameter logic of `handleGetMarkets`. -/
def parseOffsetParam (o : String) : Int :=
  if o ≠ "" then
    match atoi o with
    | some parsed => if 0 ≤ parsed then parsed else 0
    | none => 0
  else 0

/-! ### Ledger pagination (`GetMarketPositions` in `subgraph.go`)

The network is abstracted as a function `pages` from the skip offset to
that request's decoded outcome (page of positions, or a query/decode
error).  Each request asks for `first = 1000` records. -/

/-- The Graph max page size (`limit` in `GetMarketPositions`). -/
def pageLimit : Nat := 1000

/-- The pagination safety ceiling in `GetMarketPositions`. -/
def skipCeiling : Nat := 10000

/-- The fetch loop of `GetMarketPositions`: accumulate pages, stop on the
first page shorter than `pageLimit` or once the next skip would exceed
`skipCeiling`; any page error aborts the whole fetch. -/
def getPositionsLoop (pages : Nat → Except String (List PositionData))
    (skip : Nat) (acc : List PositionData) : Except String (List PositionData) :=
  match pages skip with
  | .error e => .error e
  | .ok page =>
    let acc' := acc ++ page
    if page.length < pageLimit then .ok acc'
    else if skipCeiling < skip + pageLimit then .ok acc'
    else getPositionsLoop pages (skip + pageLimit) acc'
termination_by skipCeiling + pageLimit - skip
decreasing_by
  simp only [pageLimit, skipCeiling] at *
  omega

/-- `GetMarketPositions` applied to the abstracted page source. -/
def getMarketPositions (pages : Nat → Except String (List PositionData)) :
    Except String (List PositionData) :=
  getPositionsLoop pages 0 []

/-- The sequence of skip offsets the loop issues requests at, in request
order (the erroring request, if any, included). -/
def requestedSkips (pages : Nat → Except String (List PositionData))
    (skip : Nat) : List Nat :=
  match pages skip with
  | .error _ => [skip]
  | .ok page =>
    if page.length < pageLimit then [skip]
    else if skipCeiling < skip + pageLimit then [skip]
    else skip :: requestedSkips pages (skip + pageLimit)
termination_by skipCeiling + pageLimit - skip
decreasing_by
  simp only [pageLimit, skipCeiling] at *
  omega

/-! ### Stats derivation (`ComputeMarketStats` and `computeStatsFromPrices`) -/

/-- Map with the element's position, mirroring Go's `for i, x := range xs`. -/
def mapWithIndex (f : Nat → α → β) : Nat → List α → List β
  | _, [] => []
  | i, a :: as => f i a :: mapWithIndex f (i + 1) as

/-- The distinct elements of `totalUniqueUsers` in `ComputeMarketStats`: the
set of user identifiers occurring in any position. -/
def distinctUsers (positions : List PositionData) : List String :=
  (positions.map (·.user)).dedup

/-- The distinct elements of `outcomeUsers[key]` in `ComputeMarketStats`: the
set of user identifiers of the positions whose outcome label is `key`
(empty when no position has that label, covering the missing-map-entry
case). -/
def usersForOutcome (positions : List PositionData) (key : String) : List String :=
  ((positions.filter (fun p => p.outcome = key)).map (·.user)).dedup

/-- The popular-outcome scan shared by both modes: fold over the
(label, score) pairs in index order, replacing the running best only on
strict greater-than, starting from the empty label and score 0. -/
def selectPopular (l : List (String × ℚ)) : String × ℚ :=
  l.foldl (fun acc x => if acc.2 < x.2 then x else acc) ("", 0)

/-- One iteration of the price-mode loop in `computeStatsFromPrices`: the
aligned price string (`"0"` when the prices sequence is shorter), parsed
leniently, with `percentage = price * 100` and unknown (0) user counts. -/
def priceOutcomeStat (market : Market) (i : Nat) (outcomeName : String) : OutcomeStats :=
  let price := market.outcomeTokens.getD i "0"
  let priceFloat := sscanfFloat price
  { outcome := outcomeName, outcomeIndex := i, userCount := 0,
    percentage := priceFloat * 100, price := price }

/-- The (label, parsed price) pair the price-mode popular scan compares on. -/
def pricePair (market : Market) (i : Nat) (outcomeName : String) : String × ℚ :=
  (outcomeName, sscanfFloat (market.outcomeTokens.getD i "0"))

/-- `computeStatsFromPrices` from `subgraph.go` (price mode). -/
def computeStatsFromPrices (market : Market) : MarketStats :=
  let stats := mapWithIndex (priceOutcomeStat market) 0 market.outcomes
  let sel := selectPopular (mapWithIndex (pricePair market) 0 market.outcomes)
  { marketID := market.id
    question := market.question
    totalUsers := 0
    outcomeStats := stats
    popularOutcome := sel.1
    popularPct := sel.2 * 100 }

/-- One iteration of the ledger-mode loop in `ComputeMarketStats`: the user
count of the group keyed by the decimal rendering of the index (0 when the
group is missing), its share of the distinct-user total, and the aligned
price string (`""` when the prices sequence is shorter). -/
def ledgerOutcomeStat (positions : List PositionData) (market : Market)
    (i : Nat) (outcomeName : String) : OutcomeStats :=
  let totalUsers := (distinctUsers positions).length
  let userCount := (usersForOutcome positions (toString i)).length
  let pct : ℚ := if 0 < totalUsers then (userCount : ℚ) / (totalUsers : ℚ) * 100 else 0
  let price := market.outcomeTokens.getD i ""
  { outcome := outcomeName, outcomeIndex := i, userCount := userCount,
    percentage := pct, price := price }

/-- The ledger-mode branch of `ComputeMarketStats` (reached when the fetch
succeeded and at least one distinct user was seen). -/
def computeStatsFromLedger (positions : List PositionData) (market : Market) : MarketStats :=
  let stats := mapWithIndex (ledgerOutcomeStat positions market) 0 market.outcomes
  let sel := selectPopular (stats.map (fun s => (s.outcome, s.percentage)))
  { marketID := market.id
    question := market.question
    totalUsers := (distinctUsers positions).length
    outcomeStats := stats
    popularOutcome := sel.1
    popularPct := sel.2 }

/-- `ComputeMarketStats` from `subgraph.go`, with the position fetch
abstracted to its result.  The Go function returns `(*MarketStats, error)`;
the model keeps the error slot in an `Except` to make "never an error"
expressible. -/
def computeMarketStats (fetched : Except String (List PositionData))
    (market : Market) : Except String MarketStats :=
  match fetched with
  | .error _ => .ok (computeStatsFromPrices market)
  | .ok positions =>
    let totalUsers := (distinctUsers positions).length
    if totalUsers = 0 then .ok (computeStatsFromPrices market)
    else .ok (computeStatsFromLedger positions market)

end Polyfetch

namespace Polyfetch

/-! ### Helper lemmas about `mapWithIndex` -/

theorem mapWithIndex_length (f : Nat → α → β) (n : Nat) (l : List α) :
    (mapWithIndex f n l).length = l.length := by
  induction l generalizing n with
  | nil => rfl
  | cons a as ih => simp [mapWithIndex, ih]

theorem get_mapWithIndex (f : Nat → α → β) (n : Nat) (l : List α) (i : Nat)
    (h : i < l.length) (h' : i < (mapWithIndex f n l).length) :
    (mapWithIndex f n l).get ⟨i, h'⟩ = f (n + i) (l.get ⟨i, h⟩) := by
  induction l generalizing n i with
  | nil => exact absurd h (by simp)
  | cons a as ih =>
    cases i with
    | zero => simp [mapWithIndex]
    | succ j =>
      have hj : j < as.length := by simpa using h
      have hj' : j < (mapWithIndex f (n + 1) as).length := by
        rw [mapWithIndex_length]; exact hj
      simpa [mapWithIndex, Nat.add_assoc, Nat.add_comm 1 j] using ih (n + 1) j hj hj'

theorem mem_mapWithIndex {f : Nat → α → β} {n : Nat} {l : List α} {b : β} :
    b ∈ mapWithIndex f n l ↔ ∃ i, ∃ h : i < l.length, b = f (n + i) (l.get ⟨i, h⟩) := by
  induction l generalizing n with
  | nil => simp [mapWithIndex]
  | cons a as ih =>
    simp only [mapWithIndex, List.mem_cons, ih]
    constructor
    · rintro (rfl | ⟨i, h, rfl⟩)
      · exact ⟨0, by simp, by simp⟩
      · exact ⟨i + 1, by simpa using h, by simp [Nat.add_assoc, Nat.add_comm 1 i]⟩
    · rintro ⟨i, h, rfl⟩
      cases i with
      | zero => exact Or.inl (by simp)
      | succ j =>
        exact Or.inr ⟨j, by simpa using h, by simp [Nat.add_assoc, Nat.add_comm 1 j]⟩

theorem map_mapWithIndex (f : Nat → α → β) (g : β → γ) (n : Nat) (l : List α) :
    (mapWithIndex f n l).map g = mapWithIndex (fun i a => g (f i a)) n l := by
  induction l generalizing n with
  | nil => rfl
  | cons a as ih => simp [mapWithIndex, ih]

/-! ### Distinct-user counting lemmas -/

theorem usersForOutcome_subset (positions : List PositionData) (key : String) :
    (usersForOutcome positions key).toFinset ⊆ (distinctUsers positions).toFinset := by
  intro x hx
  simp only [usersForOutcome, distinctUsers, List.mem_toFinset, List.mem_dedup,
    List.mem_map] at hx ⊢
  obtain ⟨p, hp, rfl⟩ := hx
  exact ⟨p, (List.mem_filter.mp hp).1, rfl⟩

theorem usersForOutcome_card (positions : List PositionData) (key : String) :
    (usersForOutcome positions key).length
      = ((positions.filter (fun p => p.outcome = key)).map (·.user)).toFinset.card := by
  simp [usersForOutcome, List.card_toFinset]

theorem distinctUsers_card (positions : List PositionData) :
    (distinctUsers positions).length = ((positions.map (·.user)).toFinset).card := by
  simp [distinctUsers, List.card_toFinset]

theorem usersForOutcome_length_le (positions : List PositionData) (key : String) :
    (usersForOutcome positions key).length ≤ (distinctUsers positions).length := by
  have h := Finset.card_le_card (usersForOutcome_subset positions key)
  simpa [usersForOutcome, distinctUsers, List.card_toFinset] using h

/-! ### Lemmas about the popular-outcome fold -/

theorem popular_foldl_stay (l : List (String × ℚ)) (acc : String × ℚ)
    (h : ∀ x ∈ l, x.2 ≤ acc.2) :
    l.foldl (fun acc x => if acc.2 < x.2 then x else acc) acc = acc := by
  induction l with
  | nil => rfl
  | cons a as ih =>
    have ha : ¬ acc.2 < a.2 := not_lt.mpr (h a (by simp))
    simp only [List.foldl_cons, if_neg ha]
    exact ih (fun x hx => h x (by simp [hx]))

theorem popular_foldl_lt (l : List (String × ℚ)) (acc : String × ℚ) (p : ℚ)
    (hacc : acc.2 < p) (h : ∀ x ∈ l, x.2 < p) :
    (l.foldl (fun acc x => if acc.2 < x.2 then x else acc) acc).2 < p := by
  induction l generalizing acc with
  | nil => exact hacc
  | cons a as ih =>
    simp only [List.foldl_cons]
    by_cases hc : acc.2 < a.2
    · simp only [if_pos hc]
      exact ih a (h a (by simp)) (fun x hx => h x (by simp [hx]))
    · simp only [if_neg hc]
      exact ih acc hacc (fun x hx => h x (by simp [hx]))

theorem selectPopular_first_max (l₁ l₂ : List (String × ℚ)) (x : String × ℚ)
    (hp : 0 < x.2) (h₁ : ∀ y ∈ l₁, y.2 < x.2) (h₂ : ∀ y ∈ l₂, y.2 ≤ x.2) :
    selectPopular (l₁ ++ x :: l₂) = x := by
  unfold selectPopular
  rw [List.foldl_append]
  set acc₁ := l₁.foldl (fun acc x => if acc.2 < x.2 then x else acc) ("", 0) with hacc₁
  have hlt : acc₁.2 < x.2 := by
    rw [hacc₁]; exact popular_foldl_lt l₁ ("", 0) x.2 hp h₁
  simp only [List.foldl_cons, if_pos hlt]
  exact popular_foldl_stay l₂ x h₂

theorem selectPopular_all_zero (l : List (String × ℚ)) (h : ∀ x ∈ l, x.2 = 0) :
    selectPopular l = ("", 0) := by
  unfold selectPopular
  exact popular_foldl_stay l ("", 0) (fun x hx => le_of_eq (h x hx))

theorem selectPopular_scale (l : List (String × ℚ)) :
    selectPopular (l.map (fun x => (x.1, x.2 * 100)))
      = ((selectPopular l).1, (selectPopular l).2 * 100) := by
  unfold selectPopular
  have key : ∀ (acc : String × ℚ),
      (l.map (fun x => (x.1, x.2 * 100))).foldl
          (fun acc x => if acc.2 < x.2 then x else acc) (acc.1, acc.2 * 100)
        = ((l.foldl (fun acc x => if acc.2 < x.2 then x else acc) acc).1,
           (l.foldl (fun acc x => if acc.2 < x.2 then x else acc) acc).2 * 100) := by
    intro acc
    induction l generalizing acc with
    | nil => rfl
    | cons a as ih =>
      simp only [List.map_cons, List.foldl_cons]
      have hiff : acc.2 * 100 < a.2 * 100 ↔ acc.2 < a.2 :=
        mul_lt_mul_right (by norm_num)
      by_cases hc : acc.2 < a.2
      · rw [if_pos (hiff.mpr hc), if_pos hc]
        exact ih a
      · rw [if_neg (fun hlt => hc (hiff.mp hlt)), if_neg hc]
        exact ih acc
  simpa using key ("", 0)

end Polyfetch
namespace Polyfetch

/-- Concatenation, in request order, of the successfully decoded pages at the
given skip offsets. -/
def pagesConcat (pages : Nat → Except String (List PositionData)) : List Nat → List PositionData
  | [] => []
  | s :: rest =>
    (match pages s with | .ok p => p | .error _ => []) ++ pagesConcat pages rest

theorem requestedSkips_lower (pages : Nat → Except String (List PositionData)) :
    ∀ skip, ∀ s ∈ requestedSkips pages skip, skip ≤ s := by
  intro skip
  induction skip using requestedSkips.induct pages with
  | case1 skip e hpage =>
    rw [requestedSkips, hpage]
    intro s hs; simp at hs; omega
  | case2 skip page hpage hshort =>
    rw [requestedSkips, hpage]
    intro s hs; simp [if_pos hshort] at hs; omega
  | case3 skip page hpage hfull hceil =>
    rw [requestedSkips, hpage]
    intro s hs
    simp [if_neg hfull, if_pos hceil] at hs; omega
  | case4 skip page hpage hfull hceil ih =>
    rw [requestedSkips, hpage]
    intro s hs
    simp [if_neg hfull, if_neg hceil] at hs
    rcases hs with rfl | hs
    · omega
    · have := ih s hs; omega

theorem requestedSkips_le (pages : Nat → Except String (List PositionData)) :
    ∀ skip, skip ≤ skipCeiling → ∀ s ∈ requestedSkips pages skip, s ≤ skipCeiling := by
  intro skip
  induction skip using requestedSkips.induct pages with
  | case1 skip e hpage =>
    rw [requestedSkips, hpage]
    intro hle s hs; simp at hs; omega
  | case2 skip page hpage hshort =>
    rw [requestedSkips, hpage]
    intro hle s hs; simp [if_pos hshort] at hs; omega
  | case3 skip page hpage hfull hceil =>
    rw [requestedSkips, hpage]
    intro hle s hs
    simp [if_neg hfull, if_pos hceil] at hs; omega
  | case4 skip page hpage hfull hceil ih =>
    rw [requestedSkips, hpage]
    intro hle s hs
    simp [if_neg hfull, if_neg hceil] at hs
    rcases hs with rfl | hs
    · omega
    · have hnext : skip + pageLimit ≤ skipCeiling := by
        simp only [not_lt] at hceil; exact hceil
      exact ih hnext s hs

theorem requestedSkips_chain (pages : Nat → Except String (List PositionData)) :
    ∀ skip, ∃ n, requestedSkips pages skip = List.range' skip (n + 1) pageLimit := by
  intro skip
  induction skip using requestedSkips.induct pages with
  | case1 skip e hpage =>
    refine ⟨0, ?_⟩
    rw [requestedSkips, hpage]; simp
  | case2 skip page hpage hshort =>
    refine ⟨0, ?_⟩
    rw [requestedSkips, hpage]; simp [if_pos hshort]
  | case3 skip page hpage hfull hceil =>
    refine ⟨0, ?_⟩
    rw [requestedSkips, hpage]; simp [if_neg hfull, if_pos hceil]
  | case4 skip page hpage hfull hceil ih =>
    obtain ⟨n, hn⟩ := ih
    refine ⟨n + 1, ?_⟩
    rw [requestedSkips, hpage]
    simp only [if_neg hfull, if_neg hceil, hn]
    simp [List.range'_succ]

theorem getPositionsLoop_ok (pages : Nat → Except String (List PositionData)) :
    ∀ skip acc l, getPositionsLoop pages skip acc = .ok l →
      l = acc ++ pagesConcat pages (requestedSkips pages skip) := by
  intro skip
  induction skip using requestedSkips.induct pages with
  | case1 skip e hpage =>
    intro acc l hl
    rw [getPositionsLoop, hpage] at hl
    exact absurd hl (by simp)
  | case2 skip page hpage hshort =>
    intro acc l hl
    rw [getPositionsLoop, hpage] at hl
    simp only [if_pos hshort, Except.ok.injEq] at hl
    rw [requestedSkips, hpage]
    simp [if_pos hshort, pagesConcat, hpage, ← hl]
  | case3 skip page hpage hfull hceil =>
    intro acc l hl
    rw [getPositionsLoop, hpage] at hl
    simp only [if_neg hfull, if_pos hceil, Except.ok.injEq] at hl
    rw [requestedSkips, hpage]
    simp [if_neg hfull, if_pos hceil, pagesConcat, hpage, ← hl]
  | case4 skip page hpage hfull hceil ih =>
    intro acc l hl
    rw [getPositionsLoop, hpage] at hl
    simp only [if_neg hfull, if_neg hceil] at hl
    have := ih (acc ++ page) l hl
    rw [requestedSkips, hpage]
    simp only [if_neg hfull, if_neg hceil, pagesConcat, hpage, this]
    simp

theorem requestedSkips_stop (pages : Nat → Except String (List PositionData)) :
    ∀ skip s page, s ∈ requestedSkips pages skip → pages s = .ok page →
      page.length < pageLimit → ∀ t ∈ requestedSkips pages skip, t ≤ s := by
  intro skip
  induction skip using requestedSkips.induct pages with
  | case1 skip e hpage =>
    intro s page hs hps hshort t ht
    rw [requestedSkips, hpage] at hs ht
    simp at hs ht; omega
  | case2 skip page0 hpage hshort0 =>
    intro s page hs hps hshort t ht
    rw [requestedSkips, hpage] at hs ht
    simp [if_pos hshort0] at hs ht; omega
  | case3 skip page0 hpage hfull hceil =>
    intro s page hs hps hshort t ht
    rw [requestedSkips, hpage] at hs ht
    simp [if_neg hfull, if_pos hceil] at hs ht; omega
  | case4 skip page0 hpage hfull hceil ih =>
    intro s page hs hps hshort t ht
    rw [requestedSkips, hpage] at hs ht
    simp only [if_neg hfull, if_neg hceil, List.mem_cons] at hs ht
    rcases hs with rfl | hs
    · rw [hpage] at hps
      injection hps with hps
      exact absurd hshort (hps ▸ hfull)
    · rcases ht with rfl | ht
      · have := requestedSkips_lower pages (t + pageLimit) s hs
        omega
      · exact ih s page hs hps hshort t ht

end Polyfetch
namespace Polyfetch

/-- The within-grace, active, non-closed normalized records of the search
response, in traversal order (what `SearchMarkets` would return with no
limit truncation). -/
def searchCandidates (now : Int) (events : List GammaEvent) : List Market :=
  match events with
  | [] => []
  | e :: rest =>
    ((e.markets.filter (fun gm => gm.active && !gm.closed)).map convertGammaMarket).filter
        (fun m => !isPastGrace now m)
      ++ searchCandidates now rest

theorem searchLoop_sound (now : Int) (limit : Nat) (events : List GammaEvent) :
    ∀ acc, (∀ m ∈ acc, isPastGrace now m = false) →
      ∀ m ∈ searchLoop now limit events acc, isPastGrace now m = false := by
  induction events with
  | nil => intro acc hacc m hm; exact hacc m hm
  | cons e rest ih =>
    intro acc hacc m hm
    rw [searchLoop] at hm
    have hacc' : ∀ m ∈ acc ++
        ((e.markets.filter (fun gm => gm.active && !gm.closed)).map convertGammaMarket).filter
          (fun m => !isPastGrace now m), isPastGrace now m = false := by
      intro x hx
      rcases List.mem_append.mp hx with hx | hx
      · exact hacc x hx
      · have := (List.mem_filter.mp hx).2
        simpa using this
    by_cases hlim : limit ≤ (acc ++
        ((e.markets.filter (fun gm => gm.active && !gm.closed)).map convertGammaMarket).filter
          (fun m => !isPastGrace now m)).length
    · rw [if_pos hlim] at hm
      exact hacc' m (List.mem_of_mem_take hm)
    · rw [if_neg hlim] at hm
      exact ih _ hacc' m hm

theorem searchLoop_no_truncation (now : Int) (limit : Nat) (events : List GammaEvent) :
    ∀ acc, (acc ++ searchCandidates now events).length ≤ limit →
      searchLoop now limit events acc = acc ++ searchCandidates now events := by
  induction events with
  | nil => intro acc h; simp [searchLoop, searchCandidates]
  | cons e rest ih =>
    intro acc h
    rw [searchLoop]
    set cand := ((e.markets.filter (fun gm => gm.active && !gm.closed)).map
      convertGammaMarket).filter (fun m => !isPastGrace now m) with hcand
    have hlen : acc.length + cand.length + (searchCandidates now rest).length ≤ limit := by
      have h' := h
      rw [searchCandidates, ← hcand] at h'
      simpa [List.length_append, Nat.add_assoc] using h'
    by_cases hlim : limit ≤ (acc ++ cand).length
    · have hlim' : limit ≤ acc.length + cand.length := by
        simpa [List.length_append] using hlim
      have hrestnil : searchCandidates now rest = [] := by
        have : (searchCandidates now rest).length = 0 := by omega
        exact List.length_eq_zero.mp this
      have hexact : (acc ++ cand).length ≤ limit := by
        simp only [List.length_append]
        omega
      rw [if_pos hlim, List.take_of_length_le hexact]
      rw [searchCandidates, ← hcand, hrestnil]
      simp
    · have harg : ((acc ++ cand) ++ searchCandidates now rest).length ≤ limit := by
        simpa [List.length_append, Nat.add_assoc] using hlen
      rw [if_neg hlim, ih (acc ++ cand) harg]
      rw [searchCandidates, ← hcand]
      simp [List.append_assoc]

end Polyfetch
namespace Polyfetch

/-! ### Concrete inputs used in witnesses and worked examples -/

/-- The spec's price-mode example market: outcomes Yes/No, prices 0.7/0.3. -/
def exampleYesNo : Market :=
  { id := "m1", conditionID := "c1", question := "Will it rain?", description := ""
    outcomes := ["Yes", "No"], outcomeTokens := ["0.7", "0.3"], endDate := 0
    volume := "0", liquidity := "0", active := true }

/-- The spec's tie example market: three outcomes all priced 0.2. -/
def exampleABC : Market :=
  { id := "m2", conditionID := "c2", question := "Tie?", description := ""
    outcomes := ["A", "B", "C"], outcomeTokens := ["0.2", "0.2", "0.2"], endDate := 0
    volume := "0", liquidity := "0", active := true }

/-- One user holding positions on two different outcomes of one market. -/
def examplePositions : List PositionData :=
  [ { id := "p1", user := "u", outcome := "0", market := "c1",
      quantityBought := "1", quantitySold := "0" },
    { id := "p2", user := "u", outcome := "1", market := "c1",
      quantityBought := "1", quantitySold := "0" } ]

/-- A raw record with unparseable outcomes/prices JSON and a date-only
end date. -/
def exampleGammaBad : GammaMarket :=
  { id := "g1", conditionID := "c1", question := "q", description := ""
    outcomes := "oops", outcomePrices := "also oops", endDateISO := "2030-05-06"
    volume := "1", liquidity := "2", active := true, closed := false }

/-- A page source whose first page is already empty. -/
def emptyPages : Nat → Except String (List PositionData) := fun _ => .ok []

/-! ### The claims -/

/-- C8: for every raw catalog record, the normalized Market's active flag
equals `upstreamActive AND NOT upstreamClosed`, so a record flagged active
but also closed is normalized as inactive. -/
theorem claim_C8 (gm : GammaMarket) :
    (convertGammaMarket gm).active = (gm.active && !gm.closed) := rfl

/-- C9: in `handleGetMarkets`, a limit parameter that is missing (empty),
non-numeric, zero, negative, or greater than 100 yields the default 50,
and only a limit in (0,100] passes through; an offset parameter that is
missing, non-numeric, or negative yields the default 0, and only an
offset ≥ 0 passes through. -/
theorem claim_C9 (l o : String) :
    (l = "" → parseLimitParam l = 50) ∧
    (atoi l = none → parseLimitParam l = 50) ∧
    (∀ p, atoi l = some p → p ≤ 0 ∨ 100 < p → parseLimitParam l = 50) ∧
    (∀ p, atoi l = some p → 0 < p → p ≤ 100 → parseLimitParam l = p) ∧
    (o = "" → parseOffsetParam o = 0) ∧
    (atoi o = none → parseOffsetParam o = 0) ∧
    (∀ p, atoi o = some p → p < 0 → parseOffsetParam o = 0) ∧
    (∀ p, atoi o = some p → 0 ≤ p → parseOffsetParam o = p) := by
  refine ⟨?_, ?_, ?_, ?_, ?_, ?_, ?_, ?_⟩
  · intro h; simp [parseLimitParam, h]
  · intro h
    by_cases he : l = ""
    · simp [parseLimitParam, he]
    · simp [parseLimitParam, he, h]
  · intro p hp hrange
    have he : l ≠ "" := by
      intro he
      rw [he, (by decide : atoi "" = (none : Option Int))] at hp
      exact Option.noConfusion hp
    have hnot : ¬ (0 < p ∧ p ≤ 100) := by omega
    simp [parseLimitParam, he, hp, hnot]
  · intro p hp h1 h2
    have he : l ≠ "" := by
      intro he
      rw [he, (by decide : atoi "" = (none : Option Int))] at hp
      exact Option.noConfusion hp
    simp [parseLimitParam, he, hp, h1, h2]
  · intro h; simp [parseOffsetParam, h]
  · intro h
    by_cases he : o = ""
    · simp [parseOffsetParam, he]
    · simp [parseOffsetParam, he, h]
  · intro p hp hneg
    have he : o ≠ "" := by
      intro he
      rw [he, (by decide : atoi "" = (none : Option Int))] at hp
      exact Option.noConfusion hp
    have hnot : ¬ 0 ≤ p := by omega
    simp [parseOffsetParam, he, hp, hnot]
  · intro p hp h0
    have he : o ≠ "" := by
      intro he
      rw [he, (by decide : atoi "" = (none : Option Int))] at hp
      exact Option.noConfusion hp
    simp [parseOffsetParam, he, hp, h0]

/-- Witness for C9 at concrete query strings. -/
theorem claim_C9_witness :
    parseLimitParam "" = 50 ∧ parseLimitParam "abc" = 50 ∧ parseLimitParam "0" = 50 ∧
    parseLimitParam "-7" = 50 ∧ parseLimitParam "101" = 50 ∧ parseLimitParam "100" = 100 ∧
    parseOffsetParam "" = 0 ∧ parseOffsetParam "x1" = 0 ∧ parseOffsetParam "-1" = 0 ∧
    parseOffsetParam "25" = 25 :=
  ⟨(claim_C9 "" "").1 rfl,
   (claim_C9 "abc" "").2.1 (by decide),
   (claim_C9 "0" "").2.2.1 0 (by decide) (Or.inl (by decide)),
   (claim_C9 "-7" "").2.2.1 (-7) (by decide) (Or.inl (by decide)),
   (claim_C9 "101" "").2.2.1 101 (by decide) (Or.inr (by decide)),
   (claim_C9 "100" "").2.2.2.1 100 (by decide) (by decide) (by decide),
   (claim_C9 "" "").2.2.2.2.1 rfl,
   (claim_C9 "" "x1").2.2.2.2.2.1 (by decide),
   (claim_C9 "" "-1").2.2.2.2.2.2.1 (-1) (by decide) (by decide),
   (claim_C9 "" "25").2.2.2.2.2.2.2 25 (by decide) (by decide)⟩

/-- C1: `ComputeMarketStats` never returns an error: a failed ledger fetch
or a ledger result with no distinct users falls back to price-mode stats
(whose `TotalUsers` is 0), and otherwise ledger-mode stats are returned;
the error result is nil in every case. -/
theorem claim_C1 (fetched : Except String (List PositionData)) (market : Market) :
    (∃ s, computeMarketStats fetched market = .ok s) ∧
    (∀ e, fetched = .error e →
        computeMarketStats fetched market = .ok (computeStatsFromPrices market)) ∧
    (∀ positions, fetched = .ok positions → distinctUsers positions = [] →
        computeMarketStats fetched market = .ok (computeStatsFromPrices market)) ∧
    (∀ positions, fetched = .ok positions → distinctUsers positions ≠ [] →
        computeMarketStats fetched market = .ok (computeStatsFromLedger positions market)) ∧
    (computeStatsFromPrices market).totalUsers = 0 := by
  refine ⟨?_, ?_, ?_, ?_, rfl⟩
  · cases fetched with
    | error e => exact ⟨computeStatsFromPrices market, rfl⟩
    | ok positions =>
      by_cases h : (distinctUsers positions).length = 0
      · exact ⟨computeStatsFromPrices market, by simp [computeMarketStats, h]⟩
      · exact ⟨computeStatsFromLedger positions market, by simp [computeMarketStats, h]⟩
  · rintro e rfl; rfl
  · rintro positions rfl hnil
    have h : (distinctUsers positions).length = 0 := by simp [hnil]
    simp [computeMarketStats, h]
  · rintro positions rfl hne
    have h : (distinctUsers positions).length ≠ 0 := by
      simpa using hne
    simp [computeMarketStats, h]

/-- Witness for C1: a failed fetch yields price-mode stats with no error. -/
theorem claim_C1_witness :
    computeMarketStats (.error "network down") exampleYesNo
      = .ok (computeStatsFromPrices exampleYesNo) :=
  (claim_C1 (.error "network down") exampleYesNo).2.1 "network down" rfl

end Polyfetch
namespace Polyfetch

/-- C2: in ledger mode, positions are grouped by outcome label into
per-outcome distinct-user sets plus one global distinct-user set; the
outcome at index `i` is looked up under the decimal rendering of `i`
(not the outcome name), its `UserCount` is the size of that group (0 when
no position carries that label), and
`Percentage = 100 * UserCount / TotalUsers`. -/
theorem claim_C2 (positions : List PositionData) (market : Market) (i : Nat)
    (h : i < market.outcomes.length) :
    ∃ hlen : i < (computeStatsFromLedger positions market).outcomeStats.length,
      ((computeStatsFromLedger positions market).outcomeStats.get ⟨i, hlen⟩).outcome
          = market.outcomes.get ⟨i, h⟩ ∧
      ((computeStatsFromLedger positions market).outcomeStats.get ⟨i, hlen⟩).userCount
          = ((positions.filter (fun p => p.outcome = toString i)).map
              (fun p => p.user)).toFinset.card ∧
      (computeStatsFromLedger positions market).totalUsers
          = ((positions.map (fun p => p.user)).toFinset).card ∧
      ((computeStatsFromLedger positions market).outcomeStats.get ⟨i, hlen⟩).percentage
          = 100 * (((computeStatsFromLedger positions market).outcomeStats.get
                ⟨i, hlen⟩).userCount : ℚ)
            / ((computeStatsFromLedger positions market).totalUsers : ℚ) := by
  have hlen : i < (computeStatsFromLedger positions market).outcomeStats.length := by
    show i < (mapWithIndex (ledgerOutcomeStat positions market) 0 market.outcomes).length
    rw [mapWithIndex_length]; exact h
  have hget : (computeStatsFromLedger positions market).outcomeStats.get ⟨i, hlen⟩
      = ledgerOutcomeStat positions market i (market.outcomes.get ⟨i, h⟩) := by
    show (mapWithIndex (ledgerOutcomeStat positions market) 0 market.outcomes).get ⟨i, hlen⟩
      = ledgerOutcomeStat positions market i (market.outcomes.get ⟨i, h⟩)
    rw [get_mapWithIndex (ledgerOutcomeStat positions market) 0 market.outcomes i h hlen]
    simp
  have htot : (computeStatsFromLedger positions market).totalUsers
      = (distinctUsers positions).length := rfl
  refine ⟨hlen, ?_, ?_, ?_, ?_⟩
  · rw [hget]; rfl
  · rw [hget]
    show (usersForOutcome positions (toString i)).length = _
    exact usersForOutcome_card positions (toString i)
  · rw [htot]; exact distinctUsers_card positions
  · rw [hget, htot]
    show (if 0 < (distinctUsers positions).length then
        ((usersForOutcome positions (toString i)).length : ℚ)
          / ((distinctUsers positions).length : ℚ) * 100 else 0)
      = 100 * ((usersForOutcome positions (toString i)).length : ℚ)
          / ((distinctUsers positions).length : ℚ)
    by_cases ht : 0 < (distinctUsers positions).length
    · rw [if_pos ht]; ring
    · rw [if_neg ht]
      have ht0 : (distinctUsers positions).length = 0 := by omega
      have hc0 : (usersForOutcome positions (toString i)).length = 0 := by
        have := usersForOutcome_length_le positions (toString i)
        omega
      rw [ht0, hc0]
      simp

/-- Witness for C2 at the concrete one-user, two-outcome position list. -/
theorem claim_C2_witness :
    (computeStatsFromLedger examplePositions exampleYesNo).totalUsers
      = ((examplePositions.map (fun p => p.user)).toFinset).card ∧
    ((computeStatsFromLedger examplePositions exampleYesNo).outcomeStats.length = 2) := by
  obtain ⟨hlen, h1, h2, h3, h4⟩ := claim_C2 examplePositions exampleYesNo 0 (by decide)
  exact ⟨h3, by decide⟩

end Polyfetch
namespace Polyfetch

/-- C3: in price mode, the price string for index `i` is the aligned entry
of the prices sequence or `"0"` when that sequence is too short; an
unparseable string silently becomes 0; `Percentage` is the parsed price
times 100; every user count and the total are 0.  The Yes/No example with
prices 0.7/0.3 yields percentages 70 and 30, popular outcome `"Yes"` at
70. -/
theorem claim_C3 (market : Market) (i : Nat) (h : i < market.outcomes.length) :
    ∃ hlen : i < (computeStatsFromPrices market).outcomeStats.length,
      ((computeStatsFromPrices market).outcomeStats.get ⟨i, hlen⟩).price
          = market.outcomeTokens.getD i "0" ∧
      (∀ hi : i < market.outcomeTokens.length,
          market.outcomeTokens.getD i "0" = market.outcomeTokens.get ⟨i, hi⟩) ∧
      (market.outcomeTokens.length ≤ i → market.outcomeTokens.getD i "0" = "0") ∧
      ((computeStatsFromPrices market).outcomeStats.get ⟨i, hlen⟩).percentage
          = sscanfFloat (market.outcomeTokens.getD i "0") * 100 ∧
      (∀ s : String, scanFloat s.toList = none → sscanfFloat s = 0) ∧
      ((computeStatsFromPrices market).outcomeStats.get ⟨i, hlen⟩).userCount = 0 ∧
      (computeStatsFromPrices market).totalUsers = 0 ∧
      ((computeStatsFromPrices exampleYesNo).outcomeStats.map (fun s => s.percentage)
          = [70, 30] ∧
        (computeStatsFromPrices exampleYesNo).popularOutcome = "Yes" ∧
        (computeStatsFromPrices exampleYesNo).popularPct = 70) := by
  have hlen : i < (computeStatsFromPrices market).outcomeStats.length := by
    show i < (mapWithIndex (priceOutcomeStat market) 0 market.outcomes).length
    rw [mapWithIndex_length]; exact h
  have hget : (computeStatsFromPrices market).outcomeStats.get ⟨i, hlen⟩
      = priceOutcomeStat market i (market.outcomes.get ⟨i, h⟩) := by
    show (mapWithIndex (priceOutcomeStat market) 0 market.outcomes).get ⟨i, hlen⟩ = _
    rw [get_mapWithIndex (priceOutcomeStat market) 0 market.outcomes i h hlen]
    simp
  have h7 : sscanfFloat "0.7" = mkRat 7 10 := by decide
  have h3 : sscanfFloat "0.3" = mkRat 3 10 := by decide
  have hmap : (computeStatsFromPrices exampleYesNo).outcomeStats.map (fun s => s.percentage)
      = [70, 30] := by
    show ((mapWithIndex (priceOutcomeStat exampleYesNo) 0 exampleYesNo.outcomes).map
      (fun s => s.percentage)) = [70, 30]
    simp only [exampleYesNo, mapWithIndex, priceOutcomeStat, List.map, List.getD]
    norm_num [h7, h3, Rat.mkRat_eq_div]
  have hsel : selectPopular (mapWithIndex (pricePair exampleYesNo) 0 exampleYesNo.outcomes)
      = ("Yes", mkRat 7 10) := by decide
  have hpop : (computeStatsFromPrices exampleYesNo).popularOutcome = "Yes" := by
    show (selectPopular (mapWithIndex (pricePair exampleYesNo) 0 exampleYesNo.outcomes)).1
      = "Yes"
    rw [hsel]
  have hpct : (computeStatsFromPrices exampleYesNo).popularPct = 70 := by
    show (selectPopular (mapWithIndex (pricePair exampleYesNo) 0 exampleYesNo.outcomes)).2 * 100
      = 70
    rw [hsel]
    norm_num [Rat.mkRat_eq_div]
  refine ⟨hlen, ?_, ?_, ?_, ?_, ?_, ?_, rfl, hmap, hpop, hpct⟩
  · rw [hget]; rfl
  · intro hi
    exact List.getD_eq_getElem market.outcomeTokens "0" hi
  · intro hi
    exact List.getD_eq_default market.outcomeTokens "0" hi
  · rw [hget]; rfl
  · intro s hs
    show (scanFloat s.toList).getD 0 = 0
    rw [hs]; rfl
  · rw [hget]; rfl

/-- Witness for C3 at index 1 of the Yes/No example market. -/
theorem claim_C3_witness :
    ((computeStatsFromPrices exampleYesNo).outcomeStats.map (fun s => s.price) = ["0.7", "0.3"])
      ∧ (computeStatsFromPrices exampleYesNo).totalUsers = 0 := by
  obtain ⟨hlen, hprice, _, _, _, _, _, htot, _⟩ :=
    claim_C3 exampleYesNo 1 (by decide)
  exact ⟨by decide, htot⟩

end Polyfetch
namespace Polyfetch

/-- C10: in ledger mode every per-outcome distinct-user set is contained in
the global distinct-user set, so each `UserCount` is at most `TotalUsers`
and every `Percentage` lies in [0, 100]; yet the per-outcome counts can sum
to more than `TotalUsers` (a user betting on several outcomes is counted
once per outcome but once globally), so percentages need not sum to 100 —
witnessed by one user holding positions on both outcomes. -/
theorem claim_C10 (positions : List PositionData) (market : Market) :
    (∀ s ∈ (computeStatsFromLedger positions market).outcomeStats,
        s.userCount ≤ (computeStatsFromLedger positions market).totalUsers ∧
        0 ≤ s.percentage ∧ s.percentage ≤ 100) ∧
    (∀ key, (usersForOutcome positions key).toFinset ⊆ (distinctUsers positions).toFinset) ∧
    ((computeStatsFromLedger examplePositions exampleYesNo).outcomeStats.map
        (fun s => s.userCount)).sum
      > (computeStatsFromLedger examplePositions exampleYesNo).totalUsers ∧
    ((computeStatsFromLedger examplePositions exampleYesNo).outcomeStats.map
        (fun s => s.percentage)).sum > 100 := by
  refine ⟨?_, usersForOutcome_subset positions, ?_, ?_⟩
  · intro s hs
    have hs' : s ∈ mapWithIndex (ledgerOutcomeStat positions market) 0 market.outcomes := hs
    obtain ⟨j, hj, rfl⟩ := mem_mapWithIndex.mp hs'
    have htot : (computeStatsFromLedger positions market).totalUsers
        = (distinctUsers positions).length := rfl
    have hle := usersForOutcome_length_le positions (toString (0 + j))
    refine ⟨by rw [htot]; exact hle, ?_, ?_⟩
    · show (0 : ℚ) ≤ (if 0 < (distinctUsers positions).length then
        ((usersForOutcome positions (toString (0 + j))).length : ℚ)
          / ((distinctUsers positions).length : ℚ) * 100 else 0)
      by_cases ht : 0 < (distinctUsers positions).length
      · rw [if_pos ht]
        have := div_nonneg
          (Nat.cast_nonneg (α := ℚ) (usersForOutcome positions (toString (0 + j))).length)
          (Nat.cast_nonneg (α := ℚ) (distinctUsers positions).length)
        nlinarith
      · rw [if_neg ht]
    · show (if 0 < (distinctUsers positions).length then
        ((usersForOutcome positions (toString (0 + j))).length : ℚ)
          / ((distinctUsers positions).length : ℚ) * 100 else 0) ≤ 100
      by_cases ht : 0 < (distinctUsers positions).length
      · rw [if_pos ht]
        have htq : (0 : ℚ) < ((distinctUsers positions).length : ℚ) := by
          exact_mod_cast ht
        have hfrac : ((usersForOutcome positions (toString (0 + j))).length : ℚ)
            / ((distinctUsers positions).length : ℚ) ≤ 1 := by
          rw [div_le_one htq]
          exact_mod_cast hle
        nlinarith
      · rw [if_neg ht]; norm_num
  · decide
  · have ht : (distinctUsers examplePositions).length = 1 := by decide
    have h0 : (usersForOutcome examplePositions (toString (0 : Nat))).length = 1 := by decide
    have h1 : (usersForOutcome examplePositions (toString (0 + 1 : Nat))).length = 1 := by decide
    show ((mapWithIndex (ledgerOutcomeStat examplePositions exampleYesNo) 0
      exampleYesNo.outcomes).map (fun s => s.percentage)).sum > 100
    simp only [exampleYesNo, mapWithIndex, ledgerOutcomeStat, List.map, ht, h0, h1]
    norm_num

end Polyfetch
namespace Polyfetch

/-- Witness for C10: the first outcome stat of the concrete example obeys the
count bound. -/
theorem claim_C10_witness :
    (ledgerOutcomeStat examplePositions exampleYesNo 0 "Yes").userCount
      ≤ (computeStatsFromLedger examplePositions exampleYesNo).totalUsers := by
  have hmem : ledgerOutcomeStat examplePositions exampleYesNo 0 "Yes"
      ∈ (computeStatsFromLedger examplePositions exampleYesNo).outcomeStats := by
    show _ ∈ mapWithIndex (ledgerOutcomeStat examplePositions exampleYesNo) 0
      exampleYesNo.outcomes
    exact mem_mapWithIndex.mpr ⟨0, by decide, rfl⟩
  exact ((claim_C10 examplePositions exampleYesNo).1 _ hmem).1

/-- C4: both modes pick the popular outcome by scanning in index order and
replacing the running maximum only on strict greater-than, so the first
outcome attaining the maximum wins ties against later equal percentages
(the A/B/C all-0.2 example yields "A"); when every percentage is zero the
popular outcome is the empty string with percentage 0, with no error. -/
theorem claim_C4 :
    (∀ market : Market,
      (computeStatsFromPrices market).popularOutcome
          = (selectPopular ((computeStatsFromPrices market).outcomeStats.map
              (fun s => (s.outcome, s.percentage)))).1 ∧
      (computeStatsFromPrices market).popularPct
          = (selectPopular ((computeStatsFromPrices market).outcomeStats.map
              (fun s => (s.outcome, s.percentage)))).2) ∧
    (∀ (positions : List PositionData) (market : Market),
      (computeStatsFromLedger positions market).popularOutcome
          = (selectPopular ((computeStatsFromLedger positions market).outcomeStats.map
              (fun s => (s.outcome, s.percentage)))).1 ∧
      (computeStatsFromLedger positions market).popularPct
          = (selectPopular ((computeStatsFromLedger positions market).outcomeStats.map
              (fun s => (s.outcome, s.percentage)))).2) ∧
    (∀ (l₁ l₂ : List (String × ℚ)) (x : String × ℚ), 0 < x.2 →
      (∀ y ∈ l₁, y.2 < x.2) → (∀ y ∈ l₂, y.2 ≤ x.2) →
      selectPopular (l₁ ++ x :: l₂) = x) ∧
    (∀ l : List (String × ℚ), (∀ x ∈ l, x.2 = 0) → selectPopular l = ("", 0)) ∧
    ((computeStatsFromPrices exampleABC).popularOutcome = "A" ∧
      (computeStatsFromPrices exampleABC).popularPct = 20) := by
  have hpairs : ∀ market : Market,
      (computeStatsFromPrices market).outcomeStats.map (fun s => (s.outcome, s.percentage))
        = (mapWithIndex (pricePair market) 0 market.outcomes).map
            (fun x => (x.1, x.2 * 100)) := by
    intro market
    show (mapWithIndex (priceOutcomeStat market) 0 market.outcomes).map
        (fun s => (s.outcome, s.percentage)) = _
    rw [map_mapWithIndex, map_mapWithIndex]
    rfl
  refine ⟨?_, ?_, ?_, selectPopular_all_zero, ?_, ?_⟩
  · intro market
    rw [hpairs market, selectPopular_scale]
    exact ⟨rfl, rfl⟩
  · intro positions market
    exact ⟨rfl, rfl⟩
  · intro l₁ l₂ x hx h₁ h₂
    exact selectPopular_first_max l₁ l₂ x hx h₁ h₂
  · have hsel : selectPopular (mapWithIndex (pricePair exampleABC) 0 exampleABC.outcomes)
        = ("A", mkRat 2 10) := by decide
    show (selectPopular (mapWithIndex (pricePair exampleABC) 0 exampleABC.outcomes)).1 = "A"
    rw [hsel]
  · have hsel : selectPopular (mapWithIndex (pricePair exampleABC) 0 exampleABC.outcomes)
        = ("A", mkRat 2 10) := by decide
    show (selectPopular (mapWithIndex (pricePair exampleABC) 0 exampleABC.outcomes)).2 * 100 = 20
    rw [hsel]
    norm_num [Rat.mkRat_eq_div]

/-- Witness for C4: the first of three equal entries wins the tie. -/
theorem claim_C4_witness :
    selectPopular [("A", mkRat 2 10), ("B", mkRat 2 10), ("C", mkRat 2 10)]
      = ("A", mkRat 2 10) := by
  have hfirst := (claim_C4).2.2.1 []
    [("B", mkRat 2 10), ("C", mkRat 2 10)] ("A", mkRat 2 10)
  simp only [List.nil_append] at hfirst
  refine hfirst ?_ ?_ ?_
  · show (0 : ℚ) < mkRat 2 10
    rw [Rat.mkRat_eq_div]; norm_num
  · intro y hy; exact absurd hy (List.not_mem_nil y)
  · intro y hy
    have : y = ("B", mkRat 2 10) ∨ y = ("C", mkRat 2 10) := by
      simpa using hy
    rcases this with rfl | rfl <;> exact le_refl _

end Polyfetch
namespace Polyfetch

/-- C5: for every page source the position fetch terminates after at most 11
requests; it requests pages of 1000 records at skip offsets 0, 1000, 2000, …
(a contiguous stride-1000 ramp), never at a skip beyond 10000; on success
the result is the concatenation of the returned pages in request order; and
a page shorter than the page size is always the last request issued. -/
theorem claim_C5 (pages : Nat → Except String (List PositionData)) :
    (∃ n, 1 ≤ n ∧ n ≤ 11 ∧ requestedSkips pages 0 = List.range' 0 n pageLimit) ∧
    (∀ s ∈ requestedSkips pages 0, s ≤ skipCeiling) ∧
    (∀ l, getMarketPositions pages = .ok l →
        l = pagesConcat pages (requestedSkips pages 0)) ∧
    (∀ s page, s ∈ requestedSkips pages 0 → pages s = .ok page →
        page.length < pageLimit → ∀ t ∈ requestedSkips pages 0, t ≤ s) ∧
    pageLimit = 1000 ∧ skipCeiling = 10000 := by
  have hle := requestedSkips_le pages 0 (by simp [skipCeiling])
  refine ⟨?_, hle, ?_, requestedSkips_stop pages 0, rfl, rfl⟩
  · obtain ⟨n, hn⟩ := requestedSkips_chain pages 0
    refine ⟨n + 1, by omega, ?_, hn⟩
    have hmem : pageLimit * n ∈ requestedSkips pages 0 := by
      rw [hn]
      rw [List.mem_range']
      exact ⟨n, by omega, by ring⟩
    have := hle _ hmem
    simp only [pageLimit, skipCeiling] at this
    omega
  · intro l hl
    have := getPositionsLoop_ok pages 0 [] l hl
    simpa using this

/-- Witness for C5: a source whose first page is empty stops after the
single request at skip 0 and returns the empty concatenation. -/
theorem claim_C5_witness :
    getMarketPositions emptyPages = .ok (pagesConcat emptyPages (requestedSkips emptyPages 0)) := by
  have h : getMarketPositions emptyPages = .ok [] := by
    rw [getMarketPositions, getPositionsLoop]
    simp [emptyPages, pageLimit]
  have h2 := (claim_C5 emptyPages).2.2.1 [] h
  rw [h, h2]

/-- C6: on the listing path a normalized record is excluded exactly when its
end timestamp is present (nonzero) and more than 24 hours before now; a
record with an absent end timestamp is never excluded; the search path only
returns within-grace records and, below the truncation limit, returns
exactly the active, non-closed, within-grace records; the single-market
lookup applies no exclusion at all. -/
theorem claim_C6 (now : Int) (gms : List GammaMarket) (gm : GammaMarket)
    (events : List GammaEvent) (limit : Nat) (m : Market) :
    (isPastGrace now m = true ↔ m.endDate ≠ 0 ∧ m.endDate < now - 86400) ∧
    (m ∈ fetchMarketsFrom now gms ↔
        m ∈ gms.map convertGammaMarket ∧ isPastGrace now m = false) ∧
    (m.endDate = 0 → isPastGrace now m = false) ∧
    (m ∈ searchMarketsFrom now limit events → isPastGrace now m = false) ∧
    ((searchCandidates now events).length ≤ limit →
        searchMarketsFrom now limit events = searchCandidates now events) ∧
    fetchMarketByIDFrom gm = convertGammaMarket gm := by
  refine ⟨?_, ?_, ?_, ?_, ?_, rfl⟩
  · simp [isPastGrace]
  · constructor
    · intro hm
      have := List.mem_filter.mp hm
      exact ⟨this.1, by simpa using this.2⟩
    · intro ⟨h1, h2⟩
      exact List.mem_filter.mpr ⟨h1, by simp [h2]⟩
  · intro h0
    simp [isPastGrace, h0]
  · intro hm
    exact searchLoop_sound now limit events [] (by simp) m hm
  · intro hlim
    have := searchLoop_no_truncation now limit events [] (by simpa using hlim)
    simpa [searchMarketsFrom] using this

/-- Witness for C6: a market with no end timestamp is never past grace. -/
theorem claim_C6_witness : isPastGrace 99999999 exampleYesNo = false :=
  (claim_C6 99999999 [] exampleGammaBad [] 0 exampleYesNo).2.2.1 rfl

/-- C7: normalization is total and degrades per field — an unparseable
outcomes or prices JSON string leaves the corresponding field an empty
sequence, a parseable one is kept; the end-date string is tried against
RFC3339, then date-only, then date-and-time-without-zone, the first
success wins, and if none match the end timestamp stays absent (zero). -/
theorem claim_C7 (gm : GammaMarket) :
    (parseStringArray gm.outcomes = none → (convertGammaMarket gm).outcomes = []) ∧
    (parseStringArray gm.outcomePrices = none → (convertGammaMarket gm).outcomeTokens = []) ∧
    (∀ xs, gm.outcomes ≠ "" → parseStringArray gm.outcomes = some xs →
        (convertGammaMarket gm).outcomes = xs) ∧
    (∀ xs, gm.outcomePrices ≠ "" → parseStringArray gm.outcomePrices = some xs →
        (convertGammaMarket gm).outcomeTokens = xs) ∧
    (∀ t, parseRFC3339 gm.endDateISO = some t → (convertGammaMarket gm).endDate = t) ∧
    (∀ t, parseRFC3339 gm.endDateISO = none → parseDateOnly gm.endDateISO = some t →
        (convertGammaMarket gm).endDate = t) ∧
    (∀ t, parseRFC3339 gm.endDateISO = none → parseDateOnly gm.endDateISO = none →
        parseDateTimeLocal gm.endDateISO = some t → (convertGammaMarket gm).endDate = t) ∧
    (parseRFC3339 gm.endDateISO = none → parseDateOnly gm.endDateISO = none →
        parseDateTimeLocal gm.endDateISO = none → (convertGammaMarket gm).endDate = 0) := by
  refine ⟨?_, ?_, ?_, ?_, ?_, ?_, ?_, ?_⟩
  · intro h
    show (if gm.outcomes ≠ "" then
        match parseStringArray gm.outcomes with
        | some xs => xs
        | none => [] else []) = []
    by_cases he : gm.outcomes = ""
    · simp [he]
    · simp [he, h]
  · intro h
    show (if gm.outcomePrices ≠ "" then
        match parseStringArray gm.outcomePrices with
        | some xs => xs
        | none => [] else []) = []
    by_cases he : gm.outcomePrices = ""
    · simp [he]
    · simp [he, h]
  · intro xs he h
    show (if gm.outcomes ≠ "" then
        match parseStringArray gm.outcomes with
        | some xs => xs
        | none => [] else []) = xs
    simp [he, h]
  · intro xs he h
    show (if gm.outcomePrices ≠ "" then
        match parseStringArray gm.outcomePrices with
        | some xs => xs
        | none => [] else []) = xs
    simp [he, h]
  · intro t h
    have he : gm.endDateISO ≠ "" := by
      intro he
      rw [he, (by decide : parseRFC3339 "" = (none : Option Int))] at h
      exact Option.noConfusion h
    show parseEndDate gm.endDateISO = t
    simp [parseEndDate, he, h]
  · intro t h1 h2
    have he : gm.endDateISO ≠ "" := by
      intro he
      rw [he, (by decide : parseDateOnly "" = (none : Option Int))] at h2
      exact Option.noConfusion h2
    show parseEndDate gm.endDateISO = t
    simp [parseEndDate, he, h1, h2]
  · intro t h1 h2 h3
    have he : gm.endDateISO ≠ "" := by
      intro he
      rw [he, (by decide : parseDateTimeLocal "" = (none : Option Int))] at h3
      exact Option.noConfusion h3
    show parseEndDate gm.endDateISO = t
    simp [parseEndDate, he, h1, h2, h3]
  · intro h1 h2 h3
    show parseEndDate gm.endDateISO = 0
    by_cases he : gm.endDateISO = ""
    · simp [parseEndDate, he]
    · simp [parseEndDate, he, h1, h2, h3]

/-- Witness for C7: a record with unparseable JSON fields and a date-only
end date normalizes to empty sequences and the parsed date. -/
theorem claim_C7_witness :
    (convertGammaMarket exampleGammaBad).outcomes = [] ∧
    (convertGammaMarket exampleGammaBad).outcomeTokens = [] ∧
    (convertGammaMarket exampleGammaBad).endDate = secondsFromCivil 2030 5 6 0 0 0 0 :=
  ⟨(claim_C7 exampleGammaBad).1 (by decide),
   (claim_C7 exampleGammaBad).2.1 (by decide),
   (claim_C7 exampleGammaBad).2.2.2.2.2.1 (secondsFromCivil 2030 5 6 0 0 0 0)
     (by decide) (by decide)⟩

end Polyfetch
